import Mathlib

/-!
Verification of the CyberTracker CTX builder (`cybertracker_ctx_builder.py`).

The program has two algorithmic parts:

* `scan_for_file_sets` — scans a directory, classifies files by extension
  (case-insensitive `endswith`), and groups them into `FileSet` triples by
  case-insensitive base-name (`Path.stem`) equality, first match wins.
* `build_ctx` — stages the three files of a selected `FileSet` into a
  temporary directory under the canonical names `Info.xml`, `Elements.txt`,
  `Sightings.DAT`, writes a `makecab` directive (`directive.ddf`), runs the
  compressor and, on success, copies the produced cabinet to the destination
  directory as `<name>.ctx` (with an overwrite confirmation).

File names are modelled as exact character lists (`FN`); path equality is
exact string equality, as for `pathlib.PosixPath` (on a case-insensitive
filesystem two names differing only in case cannot coexist in a directory,
so the distinct-cased scenarios below concern the POSIX runs the program
permits after its platform warning).
-/

/-- A file name (one component, no directory part), as an exact list of
characters. -/
abbrev FN := List Char

/-- File contents, as a list of bytes. -/
abbrev Bytes := List Nat

/-- ASCII lower-casing of one character, the behaviour of Python's
`str.lower` on the ASCII range used by the matcher. -/
def lowerChar (c : Char) : Char :=
  if 'A' ≤ c ∧ c ≤ 'Z' then Char.ofNat (c.toNat + 32) else c

/-- Lower-casing of a whole name: Python's `name.lower()`. -/
def lowerStr (s : FN) : FN := s.map lowerChar

/-- Index of the last `'.'` in a name, Python's `name.rfind('.')`
(`none` when there is no dot). -/
def rfindDot : FN → Option Nat
  | [] => none
  | c :: rest =>
    match rfindDot rest with
    | some i => some (i + 1)
    | none => if c = '.' then some 0 else none

/-- Python `pathlib.PurePath.stem` on a single-component name:
`i = name.rfind('.'); name[:i] if 0 < i < len(name) - 1 else name`. -/
def stem (s : FN) : FN :=
  match rfindDot s with
  | none => s
  | some i => if 0 < i ∧ i + 1 < s.length then s.take i else s

/-- The `.xml` classification test: `file.name.lower().endswith('.xml')`. -/
def endsXml (f : FN) : Bool := List.isSuffixOf (".xml".toList) (lowerStr f)

/-- The `.txt` classification test; the `elif` makes it conditional on the
`.xml` test failing. -/
def endsTxt (f : FN) : Bool :=
  !(endsXml f) && List.isSuffixOf (".txt".toList) (lowerStr f)

/-- The `.dat` classification test; the `elif` chain makes it conditional on
the `.xml` and `.txt` tests failing. -/
def endsDat (f : FN) : Bool :=
  !(endsXml f) && !(endsTxt f) && List.isSuffixOf (".dat".toList) (lowerStr f)

/-- `xml_files`: the directory entries classified as `.xml`, in enumeration
order (the input list stands for the regular files of the directory in
`iterdir` order). -/
def xmlFiles (files : List FN) : List FN := files.filter endsXml

/-- `txt_files`: the directory entries classified as `.txt`. -/
def txtFiles (files : List FN) : List FN := files.filter endsTxt

/-- `dat_files`: the directory entries classified as `.dat`. -/
def datFiles (files : List FN) : List FN := files.filter endsDat

/-- A matched triple, the dict
`{'name': base_name, 'xml': xml_file, 'txt': txt_match, 'dat': dat_match}`. -/
structure FileSet where
  name : FN
  xml : FN
  txt : FN
  dat : FN
  deriving DecidableEq

/-- The inner matching loop: first file of `cands` whose lowered stem equals
the lowered base name (`txt_file.stem.lower() == base_name.lower()`,
`break` on first hit). -/
def findMatch (base : FN) (cands : List FN) : Option FN :=
  cands.find? (fun f => lowerStr (stem f) == lowerStr base)

/-- One iteration of the outer loop of `scan_for_file_sets` for an `.xml`
file `x`: the `FileSet` it yields when both a `.txt` and a `.dat` match are
found (`if txt_match and dat_match`), `none` otherwise. -/
def matchXml (txts dats : List FN) (x : FN) : Option FileSet :=
  match findMatch (stem x) txts, findMatch (stem x) dats with
  | some t, some d => some { name := stem x, xml := x, txt := t, dat := d }
  | _, _ => none

/-- The outer loop of `scan_for_file_sets`: walks the `.xml` files, skips
those already in `processed_files`, and on a full match appends the set and
marks the three files processed. -/
def scanLoop (txts dats : List FN) : List FN → List FN → List FileSet → List FileSet
  | [], _, acc => acc
  | x :: rest, processed, acc =>
    if x ∈ processed then
      scanLoop txts dats rest processed acc
    else
      match matchXml txts dats x with
      | some fs =>
        scanLoop txts dats rest (x :: fs.txt :: fs.dat :: processed) (acc ++ [fs])
      | none => scanLoop txts dats rest processed acc

/-- `scan_for_file_sets`: classify the directory's files, then run the
matching loop with empty `processed_files` and empty result list. -/
def scan_for_file_sets (files : List FN) : List FileSet :=
  scanLoop (txtFiles files) (datFiles files) (xmlFiles files) [] []

/-! ## The build operation (`build_ctx`)

`build_ctx` is modelled as a function of the selected `FileSet`, the
destination directory contents (an association list of file name and
bytes), the process's working directory before the build, the path of the
fresh temporary staging directory, and an environment giving the outcome of
the effectful steps: the contents read from the source files, the result of
the `makecab` subprocess, the user's answer to the overwrite confirmation,
whether an I/O exception interrupts the staging copies, and the bytes
`makecab` writes into the cabinet on success. -/

/-- Outcome of `subprocess.run(["makecab", "/F", "directive.ddf"], check=True)`. -/
inductive MakecabResult
  | success
  | calledProcessError (stderr : FN)
  | fileNotFound
  deriving DecidableEq

/-- Environment of one build operation (the outcomes of its effectful
steps). -/
structure BuildEnv where
  sourceContent : FN → Bytes
  makecab : MakecabResult
  overwriteConfirmed : Bool
  stagingFails : Bool
  cabBytes : Bytes

/-- How one build invocation terminated. -/
inductive BuildStatus
  | built
  | compressorFailed
  | cancelled
  | stagingError
  deriving DecidableEq

/-- Look a file up in a directory (association list). -/
def getFile (d : List (FN × Bytes)) (n : FN) : Option Bytes :=
  (d.find? (fun p => p.1 == n)).map (fun p => p.2)

/-- `shutil.copy2` into a directory: create or overwrite the file `n`. -/
def setFile (d : List (FN × Bytes)) (n : FN) (c : Bytes) : List (FN × Bytes) :=
  d.filter (fun p => p.1 != n) ++ [(n, c)]

/-- First line of the `ddf_content` f-string: `.OPTION EXPLICIT`. -/
def ddfLine1 : FN := ".OPTION EXPLICIT".toList

/-- Start of the second line of the f-string, up to the interpolation:
`.Set CabinetNameTemplate=`. -/
def ddfNamePre : FN := ".Set CabinetNameTemplate=".toList

/-- Remainder of the f-string after the second line's newline: the fixed
`.Set` lines and the three quoted member files, each line
newline-terminated. -/
def ddfTail : FN :=
  (".Set DiskDirectoryTemplate=\n.Set CompressionType=MSZIP\n.Set Cabinet=ON\n.Set Compress=ON\n.Set CabinetFileCountThreshold=0\n.Set FolderFileCountThreshold=0\n.Set FolderSizeThreshold=0\n.Set MaxCabinetSize=0\n.Set MaxDiskFileCount=0\n.Set MaxDiskSize=0\n\"Info.xml\"\n\"Elements.txt\"\n\"Sightings.DAT\"\n").toList

/-- The `ddf_content` f-string: first line, then
`.Set CabinetNameTemplate={name}.cab`, then the fixed tail. -/
def ddf_content (name : FN) : FN :=
  ddfLine1 ++ '\n' :: (ddfNamePre ++ name ++ ".cab".toList) ++ '\n' :: ddfTail

/-- Split a text into its lines at `'\n'` (a trailing newline yields a final
empty line, as in `text.split('\n')`). -/
def lines : FN → List FN
  | [] => [[]]
  | c :: rest =>
    if c = '\n' then [] :: lines rest
    else
      match lines rest with
      | l :: ls => (c :: l) :: ls
      | [] => [[c]]

/-- The double-quote character. -/
def quoteChar : Char := Char.ofNat 34

/-- Reading of one directive line under the DDF format: a line whose first
character is a double quote names a member file of the cabinet (the text up
to the closing quote); every other line is a setting or comment.
Modelled from the spec: the directive "specifies a single compressed
cabinet whose members are exactly the three staged files" — this function
is the spec-side reading of the directive text that the claim compares the
emitted text against. -/
def ddfEntryOfLine (l : FN) : Option FN :=
  match l with
  | [] => none
  | c :: rest =>
    if c = quoteChar then some (rest.takeWhile (fun d => d ≠ quoteChar)) else none

/-- The member files a directive text specifies, in order. -/
def ddfFileEntries (content : FN) : List FN :=
  (lines content).filterMap ddfEntryOfLine

/-- Result of the body of `build_ctx` (the code inside the
`with tempfile.TemporaryDirectory()` block), before the context manager
removes the staging directory. `tempAtReturn` is the staging directory's
contents when the block is left; `stagedBeforeCompress` records its
contents just before `makecab` is invoked (empty when staging never
completed). -/
structure BodyResult where
  status : BuildStatus
  dest : List (FN × Bytes)
  cwd : FN
  tempAtReturn : List (FN × Bytes)
  stagedBeforeCompress : List (FN × Bytes)

/-- The body of `build_ctx`: stage the three files under their canonical
names, write `directive.ddf`, `chdir` into the staging directory, run
`makecab` (returning with an error dialog on `CalledProcessError` or
`FileNotFoundError`, without restoring the working directory), `chdir`
back, then copy `<name>.cab` to `<name>.ctx` in the destination after the
overwrite confirmation. An I/O exception during the staging copies
propagates to the outer handler before the `chdir`. -/
def buildBody (fs : FileSet) (destDir : List (FN × Bytes)) (cwd0 tempPath : FN)
    (env : BuildEnv) : BodyResult :=
  if env.stagingFails then
    { status := .stagingError, dest := destDir, cwd := cwd0,
      tempAtReturn := [], stagedBeforeCompress := [] }
  else
    let staged : List (FN × Bytes) :=
      [("Info.xml".toList, env.sourceContent fs.xml),
       ("Elements.txt".toList, env.sourceContent fs.txt),
       ("Sightings.DAT".toList, env.sourceContent fs.dat),
       ("directive.ddf".toList, (ddf_content fs.name).map Char.toNat)]
    match env.makecab with
    | .calledProcessError _ =>
      { status := .compressorFailed, dest := destDir, cwd := tempPath,
        tempAtReturn := staged, stagedBeforeCompress := staged }
    | .fileNotFound =>
      { status := .compressorFailed, dest := destDir, cwd := tempPath,
        tempAtReturn := staged, stagedBeforeCompress := staged }
    | .success =>
      let temp2 := staged ++ [(fs.name ++ ".cab".toList, env.cabBytes)]
      let ctxName := fs.name ++ ".ctx".toList
      if (getFile destDir ctxName).isSome && !env.overwriteConfirmed then
        { status := .cancelled, dest := destDir, cwd := cwd0,
          tempAtReturn := temp2, stagedBeforeCompress := staged }
      else
        { status := .built, dest := setFile destDir ctxName env.cabBytes, cwd := cwd0,
          tempAtReturn := temp2, stagedBeforeCompress := staged }

/-- Final state of one build invocation, after the
`tempfile.TemporaryDirectory` context manager has removed the staging
directory. -/
structure BuildResult where
  status : BuildStatus
  dest : List (FN × Bytes)
  cwd : FN
  tempFinal : List (FN × Bytes)
  stagedBeforeCompress : List (FN × Bytes)

/-- `build_ctx`: run the body inside the temporary-directory context
manager, whose exit removes the staging area and everything in it on every
path out of the block. -/
def build_ctx (fs : FileSet) (destDir : List (FN × Bytes)) (cwd0 tempPath : FN)
    (env : BuildEnv) : BuildResult :=
  let r := buildBody fs destDir cwd0 tempPath env
  { status := r.status, dest := r.dest, cwd := r.cwd, tempFinal := [],
    stagedBeforeCompress := r.stagedBeforeCompress }

/-! ## Concrete instances used in counterexamples and witnesses -/

/-- A directory holding two `.xml` files with case-insensitively equal but
distinct stems, and one `.txt`/`.dat` pair for that stem. -/
def demoFiles : List FN :=
  ["A.xml".toList, "a.xml".toList, "a.txt".toList, "a.dat".toList]

/-- The spec's worked example directory: `Leopard.xml`, `leopard.txt`,
`LEOPARD.dat`. -/
def leopardFiles : List FN :=
  ["Leopard.xml".toList, "leopard.txt".toList, "LEOPARD.dat".toList]

/-- The `FileSet` the scan reports for `leopardFiles`. -/
def leopardSet : FileSet :=
  { name := "Leopard".toList, xml := "Leopard.xml".toList,
    txt := "leopard.txt".toList, dat := "LEOPARD.dat".toList }

/-- Concrete source-file contents for the example directory. -/
def demoRead : FN → Bytes := fun f =>
  if f = "Leopard.xml".toList then [0]
  else if f = "leopard.txt".toList then [1]
  else if f = "LEOPARD.dat".toList then [2]
  else []

/-- A build environment in which every effectful step succeeds. -/
def demoEnvOk : BuildEnv :=
  { sourceContent := demoRead, makecab := .success, overwriteConfirmed := false,
    stagingFails := false, cabBytes := [9, 9] }

/-- A build environment in which `makecab` exits nonzero. -/
def demoEnvFail : BuildEnv :=
  { sourceContent := demoRead, makecab := .calledProcessError ("boom".toList),
    overwriteConfirmed := false, stagingFails := false, cabBytes := [9, 9] }

/-- A build environment in which `makecab` succeeds but the user declines
the overwrite confirmation. -/
def demoEnvDecline : BuildEnv :=
  { sourceContent := demoRead, makecab := .success, overwriteConfirmed := false,
    stagingFails := false, cabBytes := [9, 9] }

/-- A demo working directory path. -/
def cwdDemo : FN := "/work".toList

/-- A demo temporary staging directory path. -/
def tmpDemo : FN := "/tmp/stage1".toList

/-- A directory with an `.xml` and a `.txt` for the base name `leo` but no
`.dat`. -/
def partialFiles : List FN := ["leo.xml".toList, "leo.txt".toList]

/-- A destination directory already holding `Leopard.ctx`. -/
def destWithCtx : List (FN × Bytes) := [("Leopard.ctx".toList, [7, 7, 7])]

/-! ## Lemmas about the scan -/

theorem matchXml_some {txts dats : List FN} {x : FN} {fs : FileSet}
    (h : matchXml txts dats x = some fs) :
    fs.name = stem x ∧ fs.xml = x ∧ fs.txt ∈ txts ∧ fs.dat ∈ dats ∧
      lowerStr (stem fs.txt) = lowerStr (stem x) ∧
      lowerStr (stem fs.dat) = lowerStr (stem x) := by
  unfold matchXml at h
  cases ht : findMatch (stem x) txts with
  | none => rw [ht] at h; cases hd : findMatch (stem x) dats <;> rw [hd] at h <;> cases h
  | some t =>
    cases hd : findMatch (stem x) dats with
    | none => rw [ht, hd] at h; cases h
    | some d =>
      rw [ht, hd] at h
      cases h
      refine ⟨rfl, rfl, List.mem_of_find?_eq_some ht, List.mem_of_find?_eq_some hd, ?_, ?_⟩
      · have := List.find?_some ht
        simpa using this
      · have := List.find?_some hd
        simpa using this

theorem matchXml_isSome {txts dats : List FN} {x : FN}
    (ht : ∃ t ∈ txts, lowerStr (stem t) = lowerStr (stem x))
    (hd : ∃ d ∈ dats, lowerStr (stem d) = lowerStr (stem x)) :
    ∃ fs, matchXml txts dats x = some fs := by
  obtain ⟨t, htm, hte⟩ := ht
  obtain ⟨d, hdm, hde⟩ := hd
  have h1 : (findMatch (stem x) txts).isSome := by
    rw [findMatch, List.find?_isSome]
    exact ⟨t, htm, by simpa using hte⟩
  have h2 : (findMatch (stem x) dats).isSome := by
    rw [findMatch, List.find?_isSome]
    exact ⟨d, hdm, by simpa using hde⟩
  obtain ⟨t', ht'⟩ := Option.isSome_iff_exists.mp h1
  obtain ⟨d', hd'⟩ := Option.isSome_iff_exists.mp h2
  exact ⟨_, by rw [matchXml, ht', hd']⟩

theorem scanLoop_cons_skip {txts dats : List FN} {x : FN} {rest processed : List FN}
    {acc : List FileSet} (h : x ∈ processed) :
    scanLoop txts dats (x :: rest) processed acc = scanLoop txts dats rest processed acc := by
  rw [scanLoop, if_pos h]

theorem scanLoop_cons_some {txts dats : List FN} {x : FN} {rest processed : List FN}
    {acc : List FileSet} {fs : FileSet} (h : x ∉ processed)
    (hm : matchXml txts dats x = some fs) :
    scanLoop txts dats (x :: rest) processed acc =
      scanLoop txts dats rest (x :: fs.txt :: fs.dat :: processed) (acc ++ [fs]) := by
  rw [scanLoop, if_neg h, hm]

theorem scanLoop_cons_none {txts dats : List FN} {x : FN} {rest processed : List FN}
    {acc : List FileSet} (h : x ∉ processed) (hm : matchXml txts dats x = none) :
    scanLoop txts dats (x :: rest) processed acc = scanLoop txts dats rest processed acc := by
  rw [scanLoop, if_neg h, hm]

theorem mem_scanLoop {txts dats : List FN} :
    ∀ {xmls processed : List FN} {acc : List FileSet} {fs : FileSet},
      fs ∈ scanLoop txts dats xmls processed acc →
      fs ∈ acc ∨ ∃ x ∈ xmls, matchXml txts dats x = some fs := by
  intro xmls
  induction xmls with
  | nil => intro processed acc fs h; exact Or.inl h
  | cons x rest ih =>
    intro processed acc fs h
    rw [scanLoop] at h
    by_cases hp : x ∈ processed
    · rw [if_pos hp] at h
      rcases ih h with h' | ⟨y, hy, hm⟩
      · exact Or.inl h'
      · exact Or.inr ⟨y, List.mem_cons_of_mem _ hy, hm⟩
    · rw [if_neg hp] at h
      cases hm : matchXml txts dats x with
      | some fs' =>
        rw [hm] at h
        rcases ih h with h' | ⟨y, hy, hm'⟩
        · rcases List.mem_append.mp h' with h'' | h''
          · exact Or.inl h''
          · have : fs = fs' := by simpa using h''
            exact Or.inr ⟨x, List.mem_cons_self x rest, this ▸ hm⟩
        · exact Or.inr ⟨y, List.mem_cons_of_mem _ hy, hm'⟩
      | none =>
        rw [hm] at h
        rcases ih h with h' | ⟨y, hy, hm'⟩
        · exact Or.inl h'
        · exact Or.inr ⟨y, List.mem_cons_of_mem _ hy, hm'⟩

theorem scanLoop_eq_filterMap (txts dats : List FN) :
    ∀ (xmls processed : List FN) (acc : List FileSet),
      xmls.Nodup →
      (∀ x ∈ xmls, x ∉ processed) →
      (∀ t ∈ txts, t ∉ xmls) →
      (∀ d ∈ dats, d ∉ xmls) →
      scanLoop txts dats xmls processed acc = acc ++ xmls.filterMap (matchXml txts dats) := by
  intro xmls
  induction xmls with
  | nil => intro processed acc _ _ _ _; simp [scanLoop]
  | cons x rest ih =>
    intro processed acc hnd hp htx hdx
    have hxp : x ∉ processed := hp x (List.mem_cons_self x rest)
    cases hm : matchXml txts dats x with
    | some fs =>
      obtain ⟨-, -, htm, hdm, -, -⟩ := matchXml_some hm
      rw [scanLoop_cons_some hxp hm]
      have hrest : scanLoop txts dats rest (x :: fs.txt :: fs.dat :: processed) (acc ++ [fs]) =
          (acc ++ [fs]) ++ rest.filterMap (matchXml txts dats) := by
        apply ih
        · exact hnd.of_cons
        · intro y hy hmem
          rcases List.mem_cons.mp hmem with rfl | hmem
          · exact (List.nodup_cons.mp hnd).1 hy
          rcases List.mem_cons.mp hmem with rfl | hmem
          · exact htx _ htm (List.mem_cons_of_mem _ hy)
          rcases List.mem_cons.mp hmem with rfl | hmem
          · exact hdx _ hdm (List.mem_cons_of_mem _ hy)
          exact hp y (List.mem_cons_of_mem _ hy) hmem
        · intro t ht hmem
          exact htx t ht (List.mem_cons_of_mem _ hmem)
        · intro d hd hmem
          exact hdx d hd (List.mem_cons_of_mem _ hmem)
      rw [hrest, List.filterMap_cons, hm, List.append_assoc]
      rfl
    | none =>
      rw [scanLoop_cons_none hxp hm]
      have hrest : scanLoop txts dats rest processed acc =
          acc ++ rest.filterMap (matchXml txts dats) := by
        apply ih
        · exact hnd.of_cons
        · intro y hy; exact hp y (List.mem_cons_of_mem _ hy)
        · intro t ht hmem; exact htx t ht (List.mem_cons_of_mem _ hmem)
        · intro d hd hmem; exact hdx d hd (List.mem_cons_of_mem _ hmem)
      rw [hrest, List.filterMap_cons, hm]

theorem txt_not_xml (files : List FN) : ∀ t ∈ txtFiles files, t ∉ xmlFiles files := by
  intro t ht hx
  have h1 := (List.mem_filter.mp ht).2
  have h2 := (List.mem_filter.mp hx).2
  rw [endsTxt] at h1
  simp only [Bool.and_eq_true, Bool.not_eq_true'] at h1
  rw [h2] at h1
  exact Bool.noConfusion h1.1

theorem dat_not_xml (files : List FN) : ∀ d ∈ datFiles files, d ∉ xmlFiles files := by
  intro d hd hx
  have h1 := (List.mem_filter.mp hd).2
  have h2 := (List.mem_filter.mp hx).2
  rw [endsDat] at h1
  simp only [Bool.and_eq_true, Bool.not_eq_true'] at h1
  rw [h2] at h1
  exact Bool.noConfusion h1.1.1

theorem scan_eq_filterMap (files : List FN) (hnd : files.Nodup) :
    scan_for_file_sets files =
      (xmlFiles files).filterMap (matchXml (txtFiles files) (datFiles files)) := by
  rw [scan_for_file_sets]
  rw [scanLoop_eq_filterMap (txtFiles files) (datFiles files) (xmlFiles files) [] []
    (hnd.filter _) (by intro x _ h; cases h) (txt_not_xml files) (dat_not_xml files)]
  rfl

theorem filterMap_matchXml_count (txts dats : List FN) (b : FN)
    (ht : ∃ t ∈ txts, lowerStr (stem t) = lowerStr b)
    (hd : ∃ d ∈ dats, lowerStr (stem d) = lowerStr b) :
    ∀ xmls : List FN,
      ((xmls.filterMap (matchXml txts dats)).filter
          (fun fs => lowerStr fs.name == lowerStr b)).length =
        (xmls.filter (fun x => lowerStr (stem x) == lowerStr b)).length := by
  intro xmls
  induction xmls with
  | nil => rfl
  | cons x rest ih =>
    rw [List.filterMap_cons]
    by_cases hb : lowerStr (stem x) = lowerStr b
    · have hmx : ∃ fs, matchXml txts dats x = some fs := by
        apply matchXml_isSome
        · obtain ⟨t, htm, hte⟩ := ht
          exact ⟨t, htm, by rw [hte, hb]⟩
        · obtain ⟨d, hdm, hde⟩ := hd
          exact ⟨d, hdm, by rw [hde, hb]⟩
      obtain ⟨fs, hfs⟩ := hmx
      obtain ⟨hname, -, -, -, -, -⟩ := matchXml_some hfs
      have h1 : (lowerStr fs.name == lowerStr b) = true := by
        rw [hname]; exact beq_iff_eq.mpr hb
      have h2 : (lowerStr (stem x) == lowerStr b) = true := beq_iff_eq.mpr hb
      rw [hfs]
      simp only [List.filter_cons, h1, h2, if_true, List.length_cons, ih]
    · have h2 : (lowerStr (stem x) == lowerStr b) = false :=
        beq_eq_false_iff_ne.mpr hb
      cases hfs : matchXml txts dats x with
      | none => simp only [List.filter_cons, h2, Bool.false_eq_true, if_false, ih]
      | some fs =>
        obtain ⟨hname, -, -, -, -, -⟩ := matchXml_some hfs
        have h1 : (lowerStr fs.name == lowerStr b) = false := by
          rw [hname]; exact beq_eq_false_iff_ne.mpr hb
        simp only [List.filter_cons, h1, h2, Bool.false_eq_true, if_false, ih]

/-! ## Lemmas about the directive text -/

theorem lines_no_newline (a : FN) (h : '\n' ∉ a) : lines a = [a] := by
  induction a with
  | nil => rfl
  | cons c rest ih =>
    have hc : ¬(c = '\n') := fun hc => h (hc ▸ List.mem_cons_self c rest)
    have hr : '\n' ∉ rest := fun hr => h (List.mem_cons_of_mem _ hr)
    rw [lines, if_neg hc, ih hr]

theorem lines_append_cons (a b : FN) (h : '\n' ∉ a) :
    lines (a ++ '\n' :: b) = a :: lines b := by
  induction a with
  | nil => simp [lines]
  | cons c rest ih =>
    have hc : ¬(c = '\n') := fun hc => h (hc ▸ List.mem_cons_self c rest)
    have hr : '\n' ∉ rest := fun hr => h (List.mem_cons_of_mem _ hr)
    rw [List.cons_append, lines, if_neg hc, ih hr]

theorem lines_ddfTail :
    lines ddfTail =
      [".Set DiskDirectoryTemplate=".toList, ".Set CompressionType=MSZIP".toList,
       ".Set Cabinet=ON".toList, ".Set Compress=ON".toList,
       ".Set CabinetFileCountThreshold=0".toList, ".Set FolderFileCountThreshold=0".toList,
       ".Set FolderSizeThreshold=0".toList, ".Set MaxCabinetSize=0".toList,
       ".Set MaxDiskFileCount=0".toList, ".Set MaxDiskSize=0".toList,
       "\"Info.xml\"".toList, "\"Elements.txt\"".toList, "\"Sightings.DAT\"".toList,
       []] := by decide

theorem lines_ddf_content (name : FN) (h : '\n' ∉ name) :
    lines (ddf_content name) =
      ddfLine1 :: (ddfNamePre ++ name ++ ".cab".toList) :: lines ddfTail := by
  have hmid : '\n' ∉ ddfNamePre ++ name ++ ".cab".toList := by
    intro hm
    rcases List.mem_append.mp hm with hm | hm
    · rcases List.mem_append.mp hm with hm | hm
      · revert hm; decide
      · exact h hm
    · revert hm; decide
  have hshape : ddf_content name =
      ddfLine1 ++ '\n' :: ((ddfNamePre ++ name ++ ".cab".toList) ++ '\n' :: ddfTail) := by
    rw [ddf_content, List.append_assoc, List.cons_append]
  rw [hshape, lines_append_cons _ _ (by decide), lines_append_cons _ _ hmid]

theorem ddfEntryOfLine_namePre (l : FN) : ddfEntryOfLine (ddfNamePre ++ l) = none := rfl

theorem ddfFileEntries_ddf_content (name : FN) (h : '\n' ∉ name) :
    ddfFileEntries (ddf_content name) =
      ["Info.xml".toList, "Elements.txt".toList, "Sightings.DAT".toList] := by
  rw [ddfFileEntries, lines_ddf_content name h, lines_ddfTail]
  have h1 : ddfEntryOfLine ddfLine1 = none := by decide
  have h2 : ddfEntryOfLine (ddfNamePre ++ name ++ ".cab".toList) = none :=
    ddfEntryOfLine_namePre _
  rw [List.filterMap_cons, h1, List.filterMap_cons, h2]
  decide

/-! ## Lemmas about the build -/

theorem buildBody_staged (fs : FileSet) (destDir : List (FN × Bytes)) (cwd0 tempPath : FN)
    (env : BuildEnv) (hs : env.stagingFails = false) :
    (buildBody fs destDir cwd0 tempPath env).stagedBeforeCompress =
      [("Info.xml".toList, env.sourceContent fs.xml),
       ("Elements.txt".toList, env.sourceContent fs.txt),
       ("Sightings.DAT".toList, env.sourceContent fs.dat),
       ("directive.ddf".toList, (ddf_content fs.name).map Char.toNat)] := by
  simp only [buildBody, hs, Bool.false_eq_true, if_false]
  cases env.makecab with
  | success =>
    dsimp only
    split <;> rfl
  | calledProcessError e => rfl
  | fileNotFound => rfl

/-! ## The claims -/

/-- C1 (counterexample): the directory `demoFiles` contains a `.xml`, a
`.txt` and a `.dat` file whose base names are equal case-insensitively
(`A.xml`, `a.txt`, `a.dat`), yet the scan reports two FileSets for that
case-insensitive base name (one for `A.xml` and one for `a.xml`), because
consumed `.txt` and `.dat` files are never excluded from later matching. -/
theorem C1_counterexample :
    ("A.xml".toList ∈ xmlFiles demoFiles ∧ "a.txt".toList ∈ txtFiles demoFiles ∧
      "a.dat".toList ∈ datFiles demoFiles ∧
      lowerStr (stem ("a.txt".toList)) = lowerStr (stem ("A.xml".toList)) ∧
      lowerStr (stem ("a.dat".toList)) = lowerStr (stem ("A.xml".toList))) ∧
    ((scan_for_file_sets demoFiles).filter
        (fun fs => lowerStr fs.name == lowerStr ("A".toList))).length = 2 := by
  decide

/-- C1 (amended): for a directory (with distinct file names) containing
exactly one `.xml` file whose base name case-insensitively equals `b`,
together with a matching `.txt` and a matching `.dat`, the scan reports
exactly one FileSet whose name case-insensitively equals `b`. (The original
claim fails when two `.xml` files have case-insensitively equal but
distinct base names: each of them then yields a FileSet.) -/
theorem C1_scan_unique_per_xml (files : List FN) (b : FN) (hnd : files.Nodup)
    (hx : ((xmlFiles files).filter (fun x => lowerStr (stem x) == lowerStr b)).length = 1)
    (ht : ∃ t ∈ txtFiles files, lowerStr (stem t) = lowerStr b)
    (hd : ∃ d ∈ datFiles files, lowerStr (stem d) = lowerStr b) :
    ((scan_for_file_sets files).filter
        (fun fs => lowerStr fs.name == lowerStr b)).length = 1 := by
  rw [scan_eq_filterMap files hnd,
    filterMap_matchXml_count (txtFiles files) (datFiles files) b ht hd (xmlFiles files), hx]

/-- C1 (witness): the amended claim applied to the `Leopard` directory. -/
theorem C1_witness :
    ((scan_for_file_sets leopardFiles).filter
        (fun fs => lowerStr fs.name == lowerStr ("leopard".toList))).length = 1 :=
  C1_scan_unique_per_xml leopardFiles ("leopard".toList) (by decide) (by decide)
    ⟨"leopard.txt".toList, by decide, by decide⟩
    ⟨"LEOPARD.dat".toList, by decide, by decide⟩

/-- C2: whenever the compressor subprocess exits nonzero or its executable
is missing, the build terminates with status `compressorFailed` (a reported
error) and the destination directory is left exactly as it was — in
particular no `.ctx` file is created or modified there. -/
theorem C2_compressor_failure (fs : FileSet) (destDir : List (FN × Bytes))
    (cwd0 tempPath : FN) (env : BuildEnv) (hs : env.stagingFails = false)
    (hm : env.makecab ≠ MakecabResult.success) :
    (build_ctx fs destDir cwd0 tempPath env).status = BuildStatus.compressorFailed ∧
    (build_ctx fs destDir cwd0 tempPath env).dest = destDir := by
  cases hmc : env.makecab with
  | success => exact absurd hmc hm
  | calledProcessError e =>
    refine ⟨?_, ?_⟩ <;> simp [build_ctx, buildBody, hs, hmc]
  | fileNotFound =>
    refine ⟨?_, ?_⟩ <;> simp [build_ctx, buildBody, hs, hmc]

/-- C2 (witness): the claim applied to a build in which `makecab` exits
nonzero. -/
theorem C2_witness :
    (build_ctx leopardSet [] cwdDemo tmpDemo demoEnvFail).status =
      BuildStatus.compressorFailed ∧
    (build_ctx leopardSet [] cwdDemo tmpDemo demoEnvFail).dest = [] :=
  C2_compressor_failure leopardSet [] cwdDemo tmpDemo demoEnvFail rfl (by decide)

/-- C3: when a `.ctx` file of the target name already exists in the
destination and the user declines the overwrite confirmation, the build
terminates with status `cancelled` (no error) and the destination — in
particular the pre-existing file's bytes — is unchanged. -/
theorem C3_decline_overwrite (fs : FileSet) (destDir : List (FN × Bytes))
    (cwd0 tempPath : FN) (env : BuildEnv) (old : Bytes)
    (hs : env.stagingFails = false) (hm : env.makecab = MakecabResult.success)
    (hex : getFile destDir (fs.name ++ ".ctx".toList) = some old)
    (hdec : env.overwriteConfirmed = false) :
    (build_ctx fs destDir cwd0 tempPath env).status = BuildStatus.cancelled ∧
    (build_ctx fs destDir cwd0 tempPath env).dest = destDir ∧
    getFile (build_ctx fs destDir cwd0 tempPath env).dest (fs.name ++ ".ctx".toList) =
      some old := by
  have hcond : ((getFile destDir (fs.name ++ ".ctx".toList)).isSome &&
      !env.overwriteConfirmed) = true := by
    rw [hex, hdec]; rfl
  refine ⟨?_, ?_, ?_⟩ <;>
    simp only [build_ctx, buildBody, hs, Bool.false_eq_true, if_false, hm, hcond,
      eq_self_iff_true, if_true]
  exact hex

/-- C3 (witness): the claim applied to a destination already holding
`Leopard.ctx` with the user declining. -/
theorem C3_witness :
    (build_ctx leopardSet destWithCtx cwdDemo tmpDemo demoEnvDecline).status =
      BuildStatus.cancelled ∧
    (build_ctx leopardSet destWithCtx cwdDemo tmpDemo demoEnvDecline).dest = destWithCtx ∧
    getFile (build_ctx leopardSet destWithCtx cwdDemo tmpDemo demoEnvDecline).dest
      (leopardSet.name ++ ".ctx".toList) = some [7, 7, 7] :=
  C3_decline_overwrite leopardSet destWithCtx cwdDemo tmpDemo demoEnvDecline [7, 7, 7]
    rfl rfl (by decide) rfl

/-- C4: on every exit path of a build — success, compressor failure,
staging I/O exception, or user cancellation — the final contents of the
temporary staging area are empty (the `TemporaryDirectory` context manager
removes it), while everything staged before the compressor ran (the three
canonical copies and the directive) had indeed been created inside it. -/
theorem C4_temp_cleanup (fs : FileSet) (destDir : List (FN × Bytes))
    (cwd0 tempPath : FN) (env : BuildEnv) :
    (build_ctx fs destDir cwd0 tempPath env).tempFinal = [] ∧
    ∀ p ∈ (buildBody fs destDir cwd0 tempPath env).stagedBeforeCompress,
      p ∈ (buildBody fs destDir cwd0 tempPath env).tempAtReturn := by
  constructor
  · rfl
  · intro p hp
    cases hsf : env.stagingFails with
    | true =>
      simp only [buildBody, hsf, if_true] at hp
      cases hp
    | false =>
      cases hmc : env.makecab with
      | success =>
        by_cases hc : ((getFile destDir (fs.name ++ ".ctx".toList)).isSome &&
            !env.overwriteConfirmed) = true
        · simp only [buildBody, hsf, Bool.false_eq_true, if_false, hmc, hc,
            if_true] at hp ⊢
          exact List.mem_append_left _ hp
        · simp only [buildBody, hsf, Bool.false_eq_true, if_false, hmc, hc] at hp ⊢
          exact List.mem_append_left _ hp
      | calledProcessError e =>
        simp only [buildBody, hsf, Bool.false_eq_true, if_false, hmc] at hp ⊢
        exact hp
      | fileNotFound =>
        simp only [buildBody, hsf, Bool.false_eq_true, if_false, hmc] at hp ⊢
        exact hp

/-- C4 (witness): the claim applied to a compressor-failure build: the
staging area ends empty although `Info.xml` had been created in it. -/
theorem C4_witness :
    (build_ctx leopardSet [] cwdDemo tmpDemo demoEnvFail).tempFinal = [] ∧
    ("Info.xml".toList, demoRead ("Leopard.xml".toList)) ∈
      (buildBody leopardSet [] cwdDemo tmpDemo demoEnvFail).tempAtReturn :=
  ⟨(C4_temp_cleanup leopardSet [] cwdDemo tmpDemo demoEnvFail).1,
   (C4_temp_cleanup leopardSet [] cwdDemo tmpDemo demoEnvFail).2 _ (by decide)⟩

/-- C5: for every FileSet whose name contains no newline (file names never
do on the target platform), the build stages the three source files under
exactly the canonical names `Info.xml`, `Elements.txt`, `Sightings.DAT`
plus the directive file, and the directive text specifies a single
compressed cabinet (`.Set Cabinet=ON`, `.Set Compress=ON`, MSZIP) whose
member files are exactly the three staged names. -/
theorem C5_staging_and_directive (fs : FileSet) (destDir : List (FN × Bytes))
    (cwd0 tempPath : FN) (env : BuildEnv) (hs : env.stagingFails = false)
    (hn : '\n' ∉ fs.name) :
    (build_ctx fs destDir cwd0 tempPath env).stagedBeforeCompress =
      [("Info.xml".toList, env.sourceContent fs.xml),
       ("Elements.txt".toList, env.sourceContent fs.txt),
       ("Sightings.DAT".toList, env.sourceContent fs.dat),
       ("directive.ddf".toList, (ddf_content fs.name).map Char.toNat)] ∧
    ddfFileEntries (ddf_content fs.name) =
      ["Info.xml".toList, "Elements.txt".toList, "Sightings.DAT".toList] ∧
    ".Set Cabinet=ON".toList ∈ lines (ddf_content fs.name) ∧
    ".Set Compress=ON".toList ∈ lines (ddf_content fs.name) ∧
    ".Set CompressionType=MSZIP".toList ∈ lines (ddf_content fs.name) := by
  refine ⟨buildBody_staged fs destDir cwd0 tempPath env hs,
    ddfFileEntries_ddf_content fs.name hn, ?_, ?_, ?_⟩ <;>
    rw [lines_ddf_content fs.name hn, lines_ddfTail] <;>
    exact List.mem_cons_of_mem _ (List.mem_cons_of_mem _ (by decide))

/-- C5 (witness): the claim applied to the `Leopard` FileSet in the
all-success environment. -/
theorem C5_witness :
    (build_ctx leopardSet [] cwdDemo tmpDemo demoEnvOk).stagedBeforeCompress =
      [("Info.xml".toList, demoEnvOk.sourceContent leopardSet.xml),
       ("Elements.txt".toList, demoEnvOk.sourceContent leopardSet.txt),
       ("Sightings.DAT".toList, demoEnvOk.sourceContent leopardSet.dat),
       ("directive.ddf".toList, (ddf_content leopardSet.name).map Char.toNat)] ∧
    ddfFileEntries (ddf_content leopardSet.name) =
      ["Info.xml".toList, "Elements.txt".toList, "Sightings.DAT".toList] ∧
    ".Set Cabinet=ON".toList ∈ lines (ddf_content leopardSet.name) ∧
    ".Set Compress=ON".toList ∈ lines (ddf_content leopardSet.name) ∧
    ".Set CompressionType=MSZIP".toList ∈ lines (ddf_content leopardSet.name) :=
  C5_staging_and_directive leopardSet [] cwdDemo tmpDemo demoEnvOk rfl (by decide)

/-- C6: for every directory and base name for which at least one of the
three extensions has no file with that case-insensitive base name, the
scan reports no FileSet with that case-insensitive base name: partial
matches are dropped silently. -/
theorem C6_partial_dropped (files : List FN) (b : FN)
    (h : (∀ f ∈ xmlFiles files, lowerStr (stem f) ≠ lowerStr b) ∨
         (∀ f ∈ txtFiles files, lowerStr (stem f) ≠ lowerStr b) ∨
         (∀ f ∈ datFiles files, lowerStr (stem f) ≠ lowerStr b)) :
    (scan_for_file_sets files).filter (fun fs => lowerStr fs.name == lowerStr b) = [] := by
  rw [List.filter_eq_nil_iff]
  intro fs hfs hname
  have hname' : lowerStr fs.name = lowerStr b := by simpa using hname
  rw [scan_for_file_sets] at hfs
  rcases mem_scanLoop hfs with h0 | ⟨x, hx, hmx⟩
  · cases h0
  obtain ⟨hn, hxml, htm, hdm, hts, hds⟩ := matchXml_some hmx
  have hx' : lowerStr (stem x) = lowerStr b := by rw [← hn, hname']
  rcases h with h | h | h
  · exact h x hx hx'
  · exact h fs.txt htm (by rw [hts, hx'])
  · exact h fs.dat hdm (by rw [hds, hx'])

/-- C6 (witness): the claim applied to a directory holding `leo.xml` and
`leo.txt` but no `.dat`. -/
theorem C6_witness :
    (scan_for_file_sets partialFiles).filter
      (fun fs => lowerStr fs.name == lowerStr ("leo".toList)) = [] :=
  C6_partial_dropped partialFiles ("leo".toList) (Or.inr (Or.inr (by decide)))

/-- C7: the name of a reported FileSet is the stem of its `.xml` file with
that file's original casing; the spec's example directory
(`Leopard.xml`, `leopard.txt`, `LEOPARD.dat`) yields exactly one FileSet
named `Leopard`, and building it succeeds and produces `Leopard.ctx` in
the destination. -/
theorem C7_leopard_example :
    scan_for_file_sets leopardFiles = [leopardSet] ∧
    (∀ (files : List FN) (fs : FileSet),
      fs ∈ scan_for_file_sets files → fs.name = stem fs.xml) ∧
    (build_ctx leopardSet [] cwdDemo tmpDemo demoEnvOk).status = BuildStatus.built ∧
    getFile (build_ctx leopardSet [] cwdDemo tmpDemo demoEnvOk).dest
      ("Leopard.ctx".toList) = some demoEnvOk.cabBytes := by
  refine ⟨by decide, ?_, by decide, by decide⟩
  intro files fs hfs
  rw [scan_for_file_sets] at hfs
  rcases mem_scanLoop hfs with h0 | ⟨x, hx, hmx⟩
  · cases h0
  obtain ⟨hn, hxml, -, -, -, -⟩ := matchXml_some hmx
  rw [hn, hxml]

/-- C7 (witness): the name-casing rule applied to the `Leopard` FileSet. -/
theorem C7_witness : leopardSet.name = stem leopardSet.xml :=
  C7_leopard_example.2.1 leopardFiles leopardSet (by decide)

/-- C8: every FileSet a scan constructs satisfies the invariant: its three
paths are files of the scanned directory at scan time, its name is the
stem of its `.xml` member, and the three members' base names are equal
case-insensitively. (FileSets exist only as values produced by
`scan_for_file_sets`, which rebuilds the whole list from the directory on
each call; nothing in the model mutates one.) -/
theorem C8_fileset_invariant (files : List FN) (fs : FileSet)
    (h : fs ∈ scan_for_file_sets files) :
    fs.xml ∈ files ∧ fs.txt ∈ files ∧ fs.dat ∈ files ∧
    fs.name = stem fs.xml ∧
    lowerStr (stem fs.txt) = lowerStr fs.name ∧
    lowerStr (stem fs.dat) = lowerStr fs.name := by
  rw [scan_for_file_sets] at h
  rcases mem_scanLoop h with h0 | ⟨x, hx, hmx⟩
  · cases h0
  obtain ⟨hn, hxml, htm, hdm, hts, hds⟩ := matchXml_some hmx
  refine ⟨?_, ?_, ?_, ?_, ?_, ?_⟩
  · rw [hxml]; exact List.mem_of_mem_filter hx
  · exact List.mem_of_mem_filter htm
  · exact List.mem_of_mem_filter hdm
  · rw [hn, hxml]
  · rw [hn]; exact hts
  · rw [hn]; exact hds

/-- C8 (witness): the invariant applied to the `Leopard` FileSet. -/
theorem C8_witness :
    leopardSet.xml ∈ leopardFiles ∧ leopardSet.txt ∈ leopardFiles ∧
    leopardSet.dat ∈ leopardFiles ∧
    leopardSet.name = stem leopardSet.xml ∧
    lowerStr (stem leopardSet.txt) = lowerStr leopardSet.name ∧
    lowerStr (stem leopardSet.dat) = lowerStr leopardSet.name :=
  C8_fileset_invariant leopardFiles leopardSet (by decide)

/-- C9: if the compressor subprocess fails (nonzero exit or missing
executable), the build returns with the working directory still set to the
temporary staging directory; only on the successful-compressor path is it
restored to its pre-build value. -/
theorem C9_cwd_restored_only_on_success (fs : FileSet) (destDir : List (FN × Bytes))
    (cwd0 tempPath : FN) (env : BuildEnv) (hs : env.stagingFails = false) :
    (env.makecab ≠ MakecabResult.success →
      (build_ctx fs destDir cwd0 tempPath env).cwd = tempPath) ∧
    (env.makecab = MakecabResult.success →
      (build_ctx fs destDir cwd0 tempPath env).cwd = cwd0) := by
  simp only [build_ctx, buildBody, hs, Bool.false_eq_true, if_false]
  cases env.makecab with
  | success =>
    refine ⟨fun hc => absurd rfl hc, fun _ => ?_⟩
    dsimp only
    split <;> rfl
  | calledProcessError e => exact ⟨fun _ => rfl, fun hc => by cases hc⟩
  | fileNotFound => exact ⟨fun _ => rfl, fun hc => by cases hc⟩

/-- C9 (witness): after a nonzero-exit compressor run, the working
directory is the staging directory. -/
theorem C9_witness :
    (build_ctx leopardSet [] cwdDemo tmpDemo demoEnvFail).cwd = tmpDemo :=
  (C9_cwd_restored_only_on_success leopardSet [] cwdDemo tmpDemo demoEnvFail rfl).1
    (by decide)

/-- C10: reported FileSets are not pairwise disjoint: in `demoFiles`, where
two `.xml` files have case-insensitively equal but distinct names, one scan
reports two different FileSets sharing the same `.txt` and the same `.dat`
member. -/
theorem C10_filesets_share_members :
    ∃ fs1 fs2 : FileSet,
      fs1 ∈ scan_for_file_sets demoFiles ∧ fs2 ∈ scan_for_file_sets demoFiles ∧
      fs1 ≠ fs2 ∧ fs1.xml ≠ fs2.xml ∧
      fs1.txt = fs2.txt ∧ fs1.dat = fs2.dat :=
  ⟨{ name := "A".toList, xml := "A.xml".toList, txt := "a.txt".toList,
     dat := "a.dat".toList },
   { name := "a".toList, xml := "a.xml".toList, txt := "a.txt".toList,
     dat := "a.dat".toList },
   by decide, by decide, by decide, by decide, by decide, by decide⟩

